import Mathlib

/-!
Shallow embedding of the condition sub-language of rustic-sql: the error
type (src/errors.rs), the comparison and logical operators (src/operator.rs,
src/logical_operator.rs), the numeric classifier (src/utils.rs), the
condition AST with its parser and evaluator (src/clauses/condition.rs), and
the tokenizer (src/tokens.rs).

Rust strings are modelled as lists of characters (Str).  The source bounds
its scanning loops by the UTF-8 byte length of the string (str::len) while
reading characters by position (chars().nth, out of range defaulting to the
digit zero), so the byte length is modelled explicitly via Char.utf8Size.
The character classes is_alphabetic / is_numeric / is_whitespace are
modelled on their ASCII fragments (the Rust ones are full Unicode classes);
universal theorems about the tokenizer therefore carry a hypothesis that
every character of the input is a one-byte (ASCII) character, under which
the byte length coincides with the character count and the modelled classes
agree with the Rust ones.
-/

namespace RusticSql

/-- Rust strings, modelled as lists of characters. -/
abbrev Str := List Char

/-- src/errors.rs: the four error variants of SqlError. -/
inductive SqlError
  | InvalidTable
  | InvalidColumn
  | InvalidSyntax
  | Error
deriving DecidableEq, Repr

/-- src/operator.rs: comparison operators of a simple condition. -/
inductive Operator
  | Equal
  | Greater
  | Lesser
deriving DecidableEq, Repr

/-- src/logical_operator.rs: logical operators of a complex condition. -/
inductive LogicalOperator
  | And
  | Or
  | Not
deriving DecidableEq, Repr

/-- Lexicographic string comparison, as Rust uses for str values: compare
character by character, a proper prefix being smaller.  On ASCII strings
this is exactly the byte-wise comparison Rust performs. -/
def ltStr : Str → Str → Bool
  | [], [] => false
  | [], _ :: _ => true
  | _ :: _, [] => false
  | a :: as, b :: bs =>
    if a < b then true
    else if b < a then false
    else ltStr as bs

/-- Helper for is_number: value of a nonempty all-ASCII-digit string,
folded left as Rust integer parsing does; none on an empty list or any
non-digit character. -/
def parseDigits (l : Str) : Option Nat :=
  if l.isEmpty then none
  else l.foldl (fun acc c =>
    acc.bind (fun n => if c.isDigit then some (10 * n + (c.toNat - 48)) else none))
    (some 0)

/-- src/utils.rs is_number: token.parse::<i32>().is_ok().  Rust i32 parsing
accepts an optional leading sign followed by one or more ASCII digits, and
fails on overflow: positive values are bounded by 2^31 - 1 and negative
ones by 2^31. -/
def is_number (token : Str) : Bool :=
  match token with
  | '+' :: rest =>
    match parseDigits rest with
    | some n => n ≤ 2147483647
    | none => false
  | '-' :: rest =>
    match parseDigits rest with
    | some n => n ≤ 2147483648
    | none => false
  | l =>
    match parseDigits l with
    | some n => n ≤ 2147483647
    | none => false

/-- src/clauses/condition.rs: the condition AST.  Simple holds a field, a
comparison operator and a literal value; Complex holds an optional left
subtree (absent for Not), a logical operator and a right subtree. -/
inductive Condition
  | Simple (field : Str) (operator : Operator) (value : Str)
  | Complex (left : Option Condition) (operator : LogicalOperator) (right : Condition)
deriving Repr

/-- Condition::new_simple: maps the operator symbol to an Operator, any
other symbol failing with InvalidSyntax. -/
def new_simple (field operator value : Str) : Except SqlError Condition :=
  match operator with
  | ['='] => .ok (.Simple field .Equal value)
  | ['>'] => .ok (.Simple field .Greater value)
  | ['<'] => .ok (.Simple field .Lesser value)
  | _ => .error .InvalidSyntax

/-- Condition::new_simple_from_tokens: reads three tokens (field, operator,
value) starting at pos, advancing pos past each token that was read; a
missing token fails with InvalidSyntax.  The Rust function mutates pos by
reference, so the model returns the final cursor alongside the result. -/
def new_simple_from_tokens (tokens : List Str) (pos : Nat) :
    Except SqlError Condition × Nat :=
  match tokens[pos]? with
  | none => (.error .InvalidSyntax, pos)
  | some field =>
    match tokens[pos + 1]? with
    | none => (.error .InvalidSyntax, pos + 1)
    | some operator =>
      match tokens[pos + 2]? with
      | none => (.error .InvalidSyntax, pos + 2)
      | some value => (new_simple field operator value, pos + 3)

/-- The row (register) a condition is evaluated against: a map from field
names to string values, modelled as an association list with unique keys. -/
abbrev Register := List (Str × Str)

/-- Condition::execute: evaluates a condition against a register.
Simple: look the field up (absent fails with the generic Error), reject a
mixed numeric / non-numeric pair with InvalidSyntax, then compare the two
strings with the declared operator (Rust compares the str values
lexicographically).  Complex: Not negates the right subtree ignoring left;
And / Or require a left subtree (absent fails with Error), evaluate left
then right, propagating the first error, and combine the results with no
short-circuit. -/
def execute (c : Condition) (register : Register) : Except SqlError Bool :=
  match c with
  | .Simple field operator value =>
    match register.lookup field with
    | some x =>
      if (is_number value && !is_number x) || (!is_number value && is_number x) then
        .error .InvalidSyntax
      else
        match operator with
        | .Lesser => .ok (ltStr x value)
        | .Greater => .ok (ltStr value x)
        | .Equal => .ok (x == value)
    | none => .error .Error
  | .Complex left operator right =>
    match operator with
    | .Not =>
      match execute right register with
      | .ok result => .ok (!result)
      | .error e => .error e
    | .Or =>
      match left with
      | some l =>
        match execute l register with
        | .error e => .error e
        | .ok left_result =>
          match execute right register with
          | .error e => .error e
          | .ok right_result => .ok (left_result || right_result)
      | none => .error .Error
    | .And =>
      match left with
      | some l =>
        match execute l register with
        | .error e => .error e
        | .ok left_result =>
          match execute right register with
          | .error e => .error e
          | .ok right_result => .ok (left_result && right_result)
      | none => .error .Error

/-! ### Tokenizer (src/tokens.rs) -/

/-- The UTF-8 byte length of a string, Rust str::len, which bounds every
scanning loop of the tokenizer. -/
def byteLen (s : Str) : Nat := (s.map Char.utf8Size).sum

/-- string.chars().nth(index).unwrap_or(the digit zero): the character at a
position, defaulting to the digit zero out of range. -/
def charAt (s : Str) (i : Nat) : Char := s.getD i '0'

/-- Rust char::is_alphabetic, restricted to its ASCII fragment. -/
def isAlphabetic (c : Char) : Bool := c.isAlpha

/-- Rust char::is_numeric, restricted to its ASCII fragment. -/
def isNumeric (c : Char) : Bool := c.isDigit

/-- Rust char::is_alphanumeric: alphabetic or numeric. -/
def isAlphanumeric (c : Char) : Bool := isAlphabetic c || isNumeric c

/-- Rust char::is_whitespace, restricted to its ASCII fragment. -/
def isWhitespace (c : Char) : Bool :=
  c == ' ' || c == '\t' || c == '\n' || c == '\r' || c == '\x0b' || c == '\x0c'

/-- The single-quote character. -/
def squote : Char := Char.ofNat 39

/-- The shared shape of the five scanning loops of src/tokens.rs: while the
index is below the byte length and the current character satisfies the
continue-condition, push the character onto the current token and advance.
Every call supplies at least byteLen s units of fuel, which always
suffices because each iteration advances the index by one while it stays
below byteLen s. -/
def collect (cond : Char → Bool) (s : Str) : Nat → Nat → Str → Str × Nat
  | 0, i, current => (current, i)
  | fuel + 1, i, current =>
    if i < byteLen s then
      let c := charAt s i
      if cond c then collect cond s fuel (i + 1) (current ++ [c])
      else (current, i)
    else (current, i)

/-- process_alphabetic: collect a run of alphabetic or underscore
characters as one token. -/
def process_alphabetic (s : Str) (i : Nat) (current : Str) : Str × Nat :=
  collect (fun c => isAlphabetic c || c == '_') s (byteLen s) i current

/-- process_numeric: collect a run of numeric characters as one token. -/
def process_numeric (s : Str) (i : Nat) (current : Str) : Str × Nat :=
  collect isNumeric s (byteLen s) i current

/-- process_quotes: skip the opening quote, collect until the next quote or
end of input, then step past the closing quote. -/
def process_quotes (s : Str) (i : Nat) (current : Str) : Str × Nat :=
  let r := collect (fun c => c != squote) s (byteLen s) (i + 1) current
  (r.1, r.2 + 1)

/-- process_paren: skip the opening parenthesis, collect until the first
closing parenthesis or end of input, then step past it. -/
def process_paren (s : Str) (i : Nat) (current : Str) : Str × Nat :=
  let r := collect (fun c => c != ')') s (byteLen s) (i + 1) current
  (r.1, r.2 + 1)

/-- process_other: collect a run of characters that are neither
alphanumeric nor whitespace as one token. -/
def process_other (s : Str) (i : Nat) (current : Str) : Str × Nat :=
  collect (fun c => !(isAlphanumeric c || isWhitespace c)) s (byteLen s) i current

/-- The dispatch loop of tokens_from_query: at each position below the byte
length, route on the current character to the processing rule, appending
the token it produced and resuming at the index it returned; whitespace and
comma advance without emitting.  Fuel byteLen s always suffices because
every dispatched rule advances the index by at least one. -/
def tokens_loop (s : Str) : Nat → Nat → List Str → List Str
  | 0, _, tokens => tokens
  | fuel + 1, i, tokens =>
    if i < byteLen s then
      let c := charAt s i
      if isAlphabetic c || c == '_' then
        let r := process_alphabetic s i []
        tokens_loop s fuel r.2 (tokens ++ [r.1])
      else if isNumeric c then
        let r := process_numeric s i []
        tokens_loop s fuel r.2 (tokens ++ [r.1])
      else if c == squote then
        let r := process_quotes s i []
        tokens_loop s fuel r.2 (tokens ++ [r.1])
      else if c == '(' then
        let r := process_paren s i []
        tokens_loop s fuel r.2 (tokens ++ [r.1])
      else if isWhitespace c || c == ',' then
        tokens_loop s fuel (i + 1) tokens
      else
        let r := process_other s i []
        tokens_loop s fuel r.2 (tokens ++ [r.1])
    else tokens

/-- tokens_from_query: delete every semicolon from the whole input, scan it
from position zero, and discard the empty tokens at the end. -/
def tokens_from_query (q : Str) : List Str :=
  let s := q.filter (fun c => c != ';')
  (tokens_loop s (byteLen s) 0 []).filter (fun t => !t.isEmpty)

/-- Every character of the string is a one-byte UTF-8 (ASCII) character,
under which Rust indexing by byte length and by character count agree. -/
def asciiOnly (s : Str) : Prop := ∀ c ∈ s, c.utf8Size = 1

instance (s : Str) : Decidable (asciiOnly s) :=
  inferInstanceAs (Decidable (∀ c ∈ s, c.utf8Size = 1))

/-- The data needed by Condition::execute is all present: every Simple leaf
the evaluator can reach has its field in the register, and every And / Or
node has a left subtree.  The left subtree of a Not node is ignored, as the
evaluator never touches it. -/
def dataComplete (reg : Register) : Condition → Bool
  | .Simple f _ _ => (reg.lookup f).isSome
  | .Complex _ .Not r => dataComplete reg r
  | .Complex none .And _ => false
  | .Complex none .Or _ => false
  | .Complex (some l) .And r => dataComplete reg l && dataComplete reg r
  | .Complex (some l) .Or r => dataComplete reg l && dataComplete reg r

/-! ### Helper lemmas -/

theorem byteLen_of_ascii (s : Str) (h : asciiOnly s) : byteLen s = s.length := by
  induction s with
  | nil => rfl
  | cons c t ih =>
    have hc : c.utf8Size = 1 := h c (List.mem_cons_self c t)
    have ht := ih fun d hd => h d (List.mem_cons_of_mem c hd)
    simp [byteLen, hc] at ht ⊢
    omega

theorem charAt_append_cons (pre : Str) (c : Char) (t : Str) :
    charAt (pre ++ c :: t) pre.length = c := by
  induction pre with
  | nil => rfl
  | cons p ps ih => simpa [charAt, List.getD] using ih

theorem takeWhile_all (p : Char → Bool) (l : Str) (hl : ∀ c ∈ l, p c = true) :
    l.takeWhile p = l := by
  induction l with
  | nil => rfl
  | cons c t ih =>
    have hc : p c = true := hl c (List.mem_cons_self c t)
    have ht := ih fun d hd => hl d (List.mem_cons_of_mem c hd)
    simp [List.takeWhile_cons, hc, ht]

theorem takeWhile_all_append (p : Char → Bool) (l : Str) (x : Char) (r : Str)
    (hl : ∀ c ∈ l, p c = true) (hx : p x = false) :
    (l ++ x :: r).takeWhile p = l := by
  induction l with
  | nil => simp [List.takeWhile_cons, hx]
  | cons c t ih =>
    have hc : p c = true := hl c (List.mem_cons_self c t)
    have ht := ih fun d hd => hl d (List.mem_cons_of_mem c hd)
    simp [List.takeWhile_cons, hc, ht]

/-- The common specification of the five scanning loops: started at the end
of the prefix with enough fuel, the loop collects exactly the longest run
of suffix characters satisfying the continue-condition and stops right
after it. -/
theorem collect_spec (cond : Char → Bool) (pre t acc : Str) (fuel : Nat)
    (hascii : asciiOnly (pre ++ t)) (hfuel : t.length ≤ fuel) :
    collect cond (pre ++ t) fuel pre.length acc =
      (acc ++ t.takeWhile cond, pre.length + (t.takeWhile cond).length) := by
  induction t generalizing pre acc fuel with
  | nil =>
    have hb : byteLen pre = pre.length := byteLen_of_ascii pre (by simpa using hascii)
    cases fuel with
    | zero => simp [collect]
    | succ fuel => simp [collect, hb]
  | cons c t ih =>
    cases fuel with
    | zero => simp at hfuel
    | succ fuel =>
      simp only [List.length_cons] at hfuel
      have hb : byteLen (pre ++ c :: t) = pre.length + t.length + 1 := by
        rw [byteLen_of_ascii _ hascii]; simp; omega
      have hlt : pre.length < byteLen (pre ++ c :: t) := by omega
      have hch : charAt (pre ++ c :: t) pre.length = c := charAt_append_cons pre c t
      cases hc : cond c with
      | true =>
        have hascii2 : asciiOnly ((pre ++ [c]) ++ t) := by
          simpa [List.append_assoc] using hascii
        have hstep : collect cond (pre ++ c :: t) (fuel + 1) pre.length acc
            = collect cond (pre ++ c :: t) fuel (pre.length + 1) (acc ++ [c]) := by
          simp [collect, hlt, hch, hc]
        rw [hstep, show pre ++ c :: t = (pre ++ [c]) ++ t by simp,
          show pre.length + 1 = (pre ++ [c]).length by simp,
          ih (pre ++ [c]) (acc ++ [c]) fuel hascii2 (by omega)]
        simp [List.takeWhile_cons, hc, List.append_assoc]
        omega
      | false =>
        simp [collect, hlt, hch, hc, List.takeWhile_cons]

/-- Once the index has passed the byte length, the dispatch loop emits
nothing more. -/
theorem tokens_loop_past (s : Str) (fuel i : Nat) (tokens : List Str)
    (h : byteLen s ≤ i) : tokens_loop s fuel i tokens = tokens := by
  cases fuel with
  | zero => rfl
  | succ fuel => simp [tokens_loop, Nat.not_lt.mpr h]

/- Unfolding equations of Condition::execute, one per shape of the tree. -/

theorem execute_simple (f : Str) (op : Operator) (v : Str) (reg : Register) :
    execute (.Simple f op v) reg
      = match reg.lookup f with
        | some x =>
          if (is_number v && !is_number x) || (!is_number v && is_number x) then
            .error .InvalidSyntax
          else
            match op with
            | .Lesser => .ok (ltStr x v)
            | .Greater => .ok (ltStr v x)
            | .Equal => .ok (x == v)
        | none => .error .Error := rfl

theorem execute_not (lopt : Option Condition) (r : Condition) (reg : Register) :
    execute (.Complex lopt .Not r) reg
      = match execute r reg with
        | .ok result => .ok (!result)
        | .error e => .error e := rfl

theorem execute_and_some (l r : Condition) (reg : Register) :
    execute (.Complex (some l) .And r) reg
      = match execute l reg with
        | .error e => .error e
        | .ok a =>
          match execute r reg with
          | .error e => .error e
          | .ok b => .ok (a && b) := rfl

theorem execute_or_some (l r : Condition) (reg : Register) :
    execute (.Complex (some l) .Or r) reg
      = match execute l reg with
        | .error e => .error e
        | .ok a =>
          match execute r reg with
          | .error e => .error e
          | .ok b => .ok (a || b) := rfl

theorem execute_simple_some (f : Str) (op : Operator) (v x : Str) (reg : Register)
    (hx : reg.lookup f = some x) :
    execute (.Simple f op v) reg
      = if (is_number v && !is_number x) || (!is_number v && is_number x) then
          .error .InvalidSyntax
        else
          match op with
          | .Lesser => .ok (ltStr x v)
          | .Greater => .ok (ltStr v x)
          | .Equal => .ok (x == v) := by
  rw [execute_simple, hx]

theorem execute_simple_ok (f v x : Str) (op : Operator) (reg : Register)
    (hl : reg.lookup f = some x) (heq : is_number x = is_number v) :
    execute (.Simple f op v) reg
      = .ok (match op with
          | .Lesser => ltStr x v
          | .Greater => ltStr v x
          | .Equal => x == v) := by
  rw [execute_simple, hl]
  cases hv : is_number v with
  | true => rw [hv] at heq; simp [heq, hv]; cases op <;> simp
  | false => rw [hv] at heq; simp [heq, hv]; cases op <;> simp

/- If every field the evaluator can reach is present and every And / Or
node has a left subtree, evaluation never produces the generic error. -/

theorem execute_ne_generic_error (c : Condition) (reg : Register)
    (h : dataComplete reg c = true) : execute c reg ≠ .error .Error := by
  match c with
  | .Simple f op v =>
    simp [dataComplete, Option.isSome_iff_exists] at h
    obtain ⟨x, hx⟩ := h
    rw [execute_simple_some f op v x reg hx]
    split
    · simp
    · cases op <;> simp
  | .Complex lopt .Not r =>
    have ih := execute_ne_generic_error r reg (by simpa [dataComplete] using h)
    rw [execute_not]
    cases hr : execute r reg with
    | ok b => simp
    | error e => rw [hr] at ih; simpa using ih
  | .Complex none .And r => simp [dataComplete] at h
  | .Complex none .Or r => simp [dataComplete] at h
  | .Complex (some l) .And r =>
    simp [dataComplete] at h
    have ihl := execute_ne_generic_error l reg h.1
    have ihr := execute_ne_generic_error r reg h.2
    rw [execute_and_some]
    cases hl : execute l reg with
    | error e => rw [hl] at ihl; simpa using ihl
    | ok a =>
      cases hr : execute r reg with
      | error e => rw [hr] at ihr; simpa using ihr
      | ok b => simp
  | .Complex (some l) .Or r =>
    simp [dataComplete] at h
    have ihl := execute_ne_generic_error l reg h.1
    have ihr := execute_ne_generic_error r reg h.2
    rw [execute_or_some]
    cases hl : execute l reg with
    | error e => rw [hl] at ihl; simpa using ihl
    | ok a =>
      cases hr : execute r reg with
      | error e => rw [hr] at ihr; simpa using ihr
      | ok b => simp

/-! ### Claim theorems: tokenizer -/

/-- C9: tokens_from_query deletes every semicolon from the entire input
before scanning begins — tokenizing any input gives the same result as
tokenizing the input with all semicolons removed — and in particular a
quoted literal containing a semicolon, the five characters quote a
semicolon b quote, tokenizes to the single token ab, silently losing the
semicolon rather than treating it as a statement terminator only. -/
theorem semicolons_stripped_globally :
    (∀ q : Str, tokens_from_query q = tokens_from_query (q.filter (fun c => c != ';')))
    ∧ tokens_from_query [squote, 'a', ';', 'b', squote] = [['a', 'b']] := by
  constructor
  · intro q
    have h : (q.filter (fun c => c != ';')).filter (fun c => c != ';')
        = q.filter (fun c => c != ';') := by
      rw [List.filter_filter]; simp
    simp only [tokens_from_query, h]
  · decide

/-- C7 fails on the code: in the input consisting of the characters a = > b
the character = is not emitted as its own one-character token — the other
rule collects the whole maximal run of non-alphanumeric, non-whitespace
characters, so = and > form the single two-character token = > . -/
theorem other_rule_single_char_counterexample :
    tokens_from_query ['a', '=', '>', 'b'] = [['a'], ['=', '>'], ['b']]
    ∧ ['='] ∉ tokens_from_query ['a', '=', '>', 'b'] := by
  decide

/-- Claim C7 as amended: a character that is neither alphanumeric nor
whitespace and is not one of the specially dispatched characters (quote,
open parenthesis, comma, underscore) begins a token produced by the other
rule consisting of that character followed by the maximal run of subsequent
non-alphanumeric, non-whitespace characters, after which the scan resumes;
the character is a separate one-character token exactly when that run is
empty, i.e. when the next character is alphanumeric, whitespace, or end of
input — not for every input. -/
theorem other_rule_run_step (pre : Str) (c : Char) (t : Str) (fuel : Nat)
    (tokens : List Str) (hascii : asciiOnly (pre ++ c :: t))
    (h1 : isAlphanumeric c = false) (h2 : isWhitespace c = false)
    (h3 : c ≠ squote) (h4 : c ≠ '(') (h5 : c ≠ ',') (h6 : c ≠ '_') :
    tokens_loop (pre ++ c :: t) (fuel + 1) pre.length tokens
      = tokens_loop (pre ++ c :: t) fuel
          (pre.length + ((t.takeWhile (fun d => !(isAlphanumeric d || isWhitespace d))).length + 1))
          (tokens ++ [c :: t.takeWhile (fun d => !(isAlphanumeric d || isWhitespace d))]) := by
  have hb : byteLen (pre ++ c :: t) = pre.length + t.length + 1 := by
    rw [byteLen_of_ascii _ hascii]; simp; omega
  have hlt : pre.length < byteLen (pre ++ c :: t) := by omega
  have hch : charAt (pre ++ c :: t) pre.length = c := charAt_append_cons pre c t
  have h1' : isAlphabetic c = false ∧ isNumeric c = false := by
    simp [isAlphanumeric] at h1; exact h1
  have halpha : (isAlphabetic c || c == '_') = false := by simp [h1'.1, h6]
  have hnum : isNumeric c = false := h1'.2
  have hq : (c == squote) = false := by simp [h3]
  have hp : (c == '(') = false := by simp [h4]
  have hws : (isWhitespace c || c == ',') = false := by simp [h2, h5]
  have hcoll := collect_spec (fun d => !(isAlphanumeric d || isWhitespace d))
    pre (c :: t) [] (byteLen (pre ++ c :: t)) hascii (by simp; omega)
  simp only [List.takeWhile_cons, h1, h2, Bool.or_self, Bool.not_false, if_pos,
    List.nil_append, List.length_cons] at hcoll
  simp only [tokens_loop, hlt, if_pos, hch, halpha, hnum, hq, hp, hws,
    Bool.false_eq_true, if_false, process_other]
  rw [hcoll]

/-- Witness for C7 amended, at the input a = > b with the scan at the
equals sign. -/
theorem other_rule_run_step_witness :
    tokens_loop (['a'] ++ '=' :: ['>', 'b']) (3 + 1) (List.length ['a']) []
      = tokens_loop (['a'] ++ '=' :: ['>', 'b']) 3
          (List.length ['a']
            + ((List.takeWhile (fun d => !(isAlphanumeric d || isWhitespace d)) ['>', 'b']).length + 1))
          ([] ++ ['=' :: List.takeWhile (fun d => !(isAlphanumeric d || isWhitespace d)) ['>', 'b']]) :=
  other_rule_run_step ['a'] '=' ['>', 'b'] 3 [] (by decide) (by decide) (by decide)
    (by decide) (by decide) (by decide) (by decide)

/-- Claim C8: when the scan reaches a single quote it emits exactly one
token, the span interior with both quotes removed, and resumes right after
the closing quote; an unterminated opening quote consumes everything to the
end of the input as that token interior, without error; and a quoted span
with an empty interior produces no token in the final output, because empty
tokens are discarded.  Stated on the scanning loop after the global
semicolon removal, for one-byte (ASCII) inputs. -/
theorem quoted_span_step :
    (∀ (pre inner rest : Str) (fuel : Nat) (tokens : List Str),
      asciiOnly (pre ++ squote :: (inner ++ squote :: rest)) →
      (∀ c ∈ inner, c ≠ squote) →
      tokens_loop (pre ++ squote :: (inner ++ squote :: rest)) (fuel + 1) pre.length tokens
        = tokens_loop (pre ++ squote :: (inner ++ squote :: rest)) fuel
            (pre.length + (inner.length + 2)) (tokens ++ [inner]))
    ∧ (∀ (pre inner : Str) (fuel : Nat) (tokens : List Str),
      asciiOnly (pre ++ squote :: inner) →
      (∀ c ∈ inner, c ≠ squote) →
      tokens_loop (pre ++ squote :: inner) (fuel + 1) pre.length tokens
        = tokens ++ [inner])
    ∧ tokens_from_query ['a', squote, squote, 'b'] = [['a'], ['b']]
    ∧ tokens_from_query ['x', ' ', squote, 'a', 'b', 'c'] = [['x'], ['a', 'b', 'c']] := by
  refine ⟨?term, ?unterm, by decide, by decide⟩
  case term =>
    intro pre inner rest fuel tokens hascii hinner
    have e : pre ++ squote :: (inner ++ squote :: rest)
        = (pre ++ [squote]) ++ (inner ++ squote :: rest) := by simp
    have hascii2 : asciiOnly ((pre ++ [squote]) ++ (inner ++ squote :: rest)) := by
      rw [← e]; exact hascii
    have hb : byteLen (pre ++ squote :: (inner ++ squote :: rest))
        = pre.length + (inner.length + rest.length + 2) := by
      rw [byteLen_of_ascii _ hascii]; simp; omega
    have hlt : pre.length < byteLen (pre ++ squote :: (inner ++ squote :: rest)) := by omega
    have hch : charAt (pre ++ squote :: (inner ++ squote :: rest)) pre.length = squote :=
      charAt_append_cons pre squote (inner ++ squote :: rest)
    have halpha : (isAlphabetic squote || squote == '_') = false := by decide
    have hnum : isNumeric squote = false := by decide
    have hqq : (squote == squote) = true := by decide
    have htw : (inner ++ squote :: rest).takeWhile (fun d => d != squote) = inner :=
      takeWhile_all_append _ inner squote rest (fun c hc => by simp [hinner c hc]) (by decide)
    have hfuel : (inner ++ squote :: rest).length
        ≤ byteLen ((pre ++ [squote]) ++ (inner ++ squote :: rest)) := by
      rw [byteLen_of_ascii _ hascii2]; simp; omega
    have hpq : process_quotes (pre ++ squote :: (inner ++ squote :: rest)) pre.length []
        = (inner, pre.length + (inner.length + 2)) := by
      unfold process_quotes
      rw [e, show pre.length + 1 = (pre ++ [squote]).length from by simp,
        collect_spec _ _ _ _ _ hascii2 hfuel, htw]
      simp
      omega
    simp only [tokens_loop, hlt, if_pos, hch, halpha, hnum, hqq, Bool.false_eq_true,
      if_false, hpq]
  case unterm =>
    intro pre inner fuel tokens hascii hinner
    have e : pre ++ squote :: inner = (pre ++ [squote]) ++ inner := by simp
    have hascii2 : asciiOnly ((pre ++ [squote]) ++ inner) := by
      rw [← e]; exact hascii
    have hb : byteLen (pre ++ squote :: inner) = pre.length + (inner.length + 1) := by
      rw [byteLen_of_ascii _ hascii]; simp
    have hlt : pre.length < byteLen (pre ++ squote :: inner) := by omega
    have hch : charAt (pre ++ squote :: inner) pre.length = squote :=
      charAt_append_cons pre squote inner
    have halpha : (isAlphabetic squote || squote == '_') = false := by decide
    have hnum : isNumeric squote = false := by decide
    have hqq : (squote == squote) = true := by decide
    have htw : inner.takeWhile (fun d => d != squote) = inner :=
      takeWhile_all _ inner (fun c hc => by simp [hinner c hc])
    have hfuel : inner.length ≤ byteLen ((pre ++ [squote]) ++ inner) := by
      rw [byteLen_of_ascii _ hascii2]; simp; omega
    have hpq : process_quotes (pre ++ squote :: inner) pre.length []
        = (inner, pre.length + (inner.length + 2)) := by
      unfold process_quotes
      rw [e, show pre.length + 1 = (pre ++ [squote]).length from by simp,
        collect_spec _ _ _ _ _ hascii2 hfuel, htw]
      simp
      omega
    simp only [tokens_loop, hlt, if_pos, hch, halpha, hnum, hqq, Bool.false_eq_true,
      if_false, hpq]
    exact tokens_loop_past _ _ _ _ (by omega)

/-- Witness for C8, scanning a quoted span with interior h followed by z. -/
theorem quoted_span_step_witness :
    tokens_loop (([] : Str) ++ squote :: (['h'] ++ squote :: ['z'])) (2 + 1)
        (List.length ([] : Str)) []
      = tokens_loop (([] : Str) ++ squote :: (['h'] ++ squote :: ['z'])) 2
          (List.length ([] : Str) + (List.length ['h'] + 2)) ([] ++ [['h']]) :=
  quoted_span_step.1 [] ['h'] ['z'] 2 [] (by decide) (by decide)

/-- Claim C10: a parenthesized token does not nest — a token opened by an
open parenthesis ends at the first close parenthesis anywhere in the rest
of the input, its content is exactly the characters in between, and any
later characters, including a now-unmatched outer close parenthesis, are
tokenized separately by the other rules; an unterminated open parenthesis
consumes to the end of the input as the token content, without error.  The
interior carries no hypothesis excluding open parentheses, so nesting gives
no special treatment, as the concrete doubly-parenthesized input shows. -/
theorem paren_span_step :
    (∀ (pre inner rest : Str) (fuel : Nat) (tokens : List Str),
      asciiOnly (pre ++ '(' :: (inner ++ ')' :: rest)) →
      (∀ c ∈ inner, c ≠ ')') →
      tokens_loop (pre ++ '(' :: (inner ++ ')' :: rest)) (fuel + 1) pre.length tokens
        = tokens_loop (pre ++ '(' :: (inner ++ ')' :: rest)) fuel
            (pre.length + (inner.length + 2)) (tokens ++ [inner]))
    ∧ (∀ (pre inner : Str) (fuel : Nat) (tokens : List Str),
      asciiOnly (pre ++ '(' :: inner) →
      (∀ c ∈ inner, c ≠ ')') →
      tokens_loop (pre ++ '(' :: inner) (fuel + 1) pre.length tokens
        = tokens ++ [inner])
    ∧ tokens_from_query ['(', '(', 'a', ')', 'b', ')'] = [['(', 'a'], ['b'], [')']] := by
  refine ⟨?term, ?unterm, by decide⟩
  case term =>
    intro pre inner rest fuel tokens hascii hinner
    have e : pre ++ '(' :: (inner ++ ')' :: rest)
        = (pre ++ ['(']) ++ (inner ++ ')' :: rest) := by simp
    have hascii2 : asciiOnly ((pre ++ ['(']) ++ (inner ++ ')' :: rest)) := by
      rw [← e]; exact hascii
    have hb : byteLen (pre ++ '(' :: (inner ++ ')' :: rest))
        = pre.length + (inner.length + rest.length + 2) := by
      rw [byteLen_of_ascii _ hascii]; simp; omega
    have hlt : pre.length < byteLen (pre ++ '(' :: (inner ++ ')' :: rest)) := by omega
    have hch : charAt (pre ++ '(' :: (inner ++ ')' :: rest)) pre.length = '(' :=
      charAt_append_cons pre '(' (inner ++ ')' :: rest)
    have halpha : (isAlphabetic '(' || '(' == '_') = false := by decide
    have hnum : isNumeric '(' = false := by decide
    have hq : ('(' == squote) = false := by decide
    have hpp : ('(' == '(') = true := by decide
    have htw : (inner ++ ')' :: rest).takeWhile (fun d => d != ')') = inner :=
      takeWhile_all_append _ inner ')' rest (fun c hc => by simp [hinner c hc]) (by decide)
    have hfuel : (inner ++ ')' :: rest).length
        ≤ byteLen ((pre ++ ['(']) ++ (inner ++ ')' :: rest)) := by
      rw [byteLen_of_ascii _ hascii2]; simp; omega
    have hpq : process_paren (pre ++ '(' :: (inner ++ ')' :: rest)) pre.length []
        = (inner, pre.length + (inner.length + 2)) := by
      unfold process_paren
      rw [e, show pre.length + 1 = (pre ++ ['(']).length from by simp,
        collect_spec _ _ _ _ _ hascii2 hfuel, htw]
      simp
      omega
    simp only [tokens_loop, hlt, if_pos, hch, halpha, hnum, hq, hpp, Bool.false_eq_true,
      if_false, hpq]
  case unterm =>
    intro pre inner fuel tokens hascii hinner
    have e : pre ++ '(' :: inner = (pre ++ ['(']) ++ inner := by simp
    have hascii2 : asciiOnly ((pre ++ ['(']) ++ inner) := by
      rw [← e]; exact hascii
    have hb : byteLen (pre ++ '(' :: inner) = pre.length + (inner.length + 1) := by
      rw [byteLen_of_ascii _ hascii]; simp
    have hlt : pre.length < byteLen (pre ++ '(' :: inner) := by omega
    have hch : charAt (pre ++ '(' :: inner) pre.length = '(' :=
      charAt_append_cons pre '(' inner
    have halpha : (isAlphabetic '(' || '(' == '_') = false := by decide
    have hnum : isNumeric '(' = false := by decide
    have hq : ('(' == squote) = false := by decide
    have hpp : ('(' == '(') = true := by decide
    have htw : inner.takeWhile (fun d => d != ')') = inner :=
      takeWhile_all _ inner (fun c hc => by simp [hinner c hc])
    have hfuel : inner.length ≤ byteLen ((pre ++ ['(']) ++ inner) := by
      rw [byteLen_of_ascii _ hascii2]; simp; omega
    have hpq : process_paren (pre ++ '(' :: inner) pre.length []
        = (inner, pre.length + (inner.length + 2)) := by
      unfold process_paren
      rw [e, show pre.length + 1 = (pre ++ ['(']).length from by simp,
        collect_spec _ _ _ _ _ hascii2 hfuel, htw]
      simp
      omega
    simp only [tokens_loop, hlt, if_pos, hch, halpha, hnum, hq, hpp, Bool.false_eq_true,
      if_false, hpq]
    exact tokens_loop_past _ _ _ _ (by omega)

/-- Witness for C10, scanning a parenthesized span with interior h followed
by z. -/
theorem paren_span_step_witness :
    tokens_loop (([] : Str) ++ '(' :: (['h'] ++ ')' :: ['z'])) (2 + 1)
        (List.length ([] : Str)) []
      = tokens_loop (([] : Str) ++ '(' :: (['h'] ++ ')' :: ['z'])) 2
          (List.length ([] : Str) + (List.length ['h'] + 2)) ([] ++ [['h']]) :=
  paren_span_step.1 [] ['h'] ['z'] 2 [] (by decide) (by decide)

/-! ### Claim theorems: condition parser and evaluator -/

/-- Claim C6: Condition::new_simple_from_tokens consumes exactly three
tokens from the cursor — field, operator symbol, literal value — advancing
the cursor by three on success; it fails with InvalidSyntax when fewer than
three tokens remain from the cursor, or when all three are present but the
operator symbol is not one of the three comparison symbols; on failure no
condition is returned. -/
theorem new_simple_from_tokens_spec :
    (∀ (tokens : List Str) (pos : Nat), tokens.length < pos + 3 →
      (new_simple_from_tokens tokens pos).1 = .error .InvalidSyntax)
    ∧ (∀ (tokens : List Str) (pos : Nat) (f o v : Str),
      tokens[pos]? = some f → tokens[pos + 1]? = some o →
      tokens[pos + 2]? = some v →
      new_simple_from_tokens tokens pos = (new_simple f o v, pos + 3))
    ∧ (∀ f v : Str, new_simple f ['='] v = .ok (.Simple f .Equal v)
      ∧ new_simple f ['>'] v = .ok (.Simple f .Greater v)
      ∧ new_simple f ['<'] v = .ok (.Simple f .Lesser v))
    ∧ (∀ f o v : Str, o ≠ ['='] → o ≠ ['>'] → o ≠ ['<'] →
      new_simple f o v = .error .InvalidSyntax) := by
  refine ⟨?short, ?full, fun f v => ⟨rfl, rfl, rfl⟩, ?bad⟩
  case short =>
    intro tokens pos h
    have h2 : tokens[pos + 2]? = none := by
      rw [List.getElem?_eq_none_iff]; omega
    cases hf : tokens[pos]? with
    | none => simp [new_simple_from_tokens, hf]
    | some f =>
      cases ho : tokens[pos + 1]? with
      | none => simp [new_simple_from_tokens, hf, ho]
      | some o => simp [new_simple_from_tokens, hf, ho, h2]
  case full =>
    intro tokens pos f o v hf ho hv
    simp [new_simple_from_tokens, hf, ho, hv]
  case bad =>
    intro f o v h1 h2 h3
    unfold new_simple
    split <;> simp_all

/-- Witness for C6: a one-token list fails, a full three-token list
succeeds advancing the cursor by three, and a bad operator symbol fails. -/
theorem new_simple_from_tokens_spec_witness :
    (new_simple_from_tokens [['a']] 0).1 = .error .InvalidSyntax
    ∧ new_simple_from_tokens [['a'], ['>'], ['b']] 0 = (new_simple ['a'] ['>'] ['b'], 0 + 3)
    ∧ new_simple ['a'] ['#'] ['b'] = .error .InvalidSyntax :=
  ⟨new_simple_from_tokens_spec.1 [['a']] 0 (by decide),
    new_simple_from_tokens_spec.2.1 [['a'], ['>'], ['b']] 0 ['a'] ['>'] ['b'] rfl rfl rfl,
    new_simple_from_tokens_spec.2.2.2 ['a'] ['#'] ['b'] (by decide) (by decide) (by decide)⟩

/-- Claim C1 fails on the code: the three tokens age > abc are well formed
and parse successfully, and the row does contain the field age, yet
evaluating the parsed condition raises InvalidSyntax, because the row value
18 is numeric while the literal abc is not. -/
theorem parse_eval_invalid_counterexample :
    new_simple_from_tokens [['a','g','e'], ['>'], ['a','b','c']] 0
      = (.ok (.Simple ['a','g','e'] .Greater ['a','b','c']), 3)
    ∧ execute (.Simple ['a','g','e'] .Greater ['a','b','c']) [(['a','g','e'], ['1','8'])]
      = .error .InvalidSyntax := ⟨rfl, rfl⟩

/-- Claim C1 as amended: for every well-formed three-token sequence with a
comparison operator symbol, parsing with new_simple_from_tokens and then
evaluating against a row containing the field succeeds — in particular it
never raises InvalidSyntax — provided additionally that the row value and
the literal have the same numeric classification, both or neither parsing
as a 32-bit signed integer. -/
theorem parse_eval_ok_of_same_class (f o v x : Str) (reg : Register)
    (ho : o = ['='] ∨ o = ['>'] ∨ o = ['<']) (hl : reg.lookup f = some x)
    (heq : is_number x = is_number v) :
    ∃ cond b, (new_simple_from_tokens [f, o, v] 0).1 = .ok cond
      ∧ execute cond reg = .ok b := by
  rcases ho with rfl | rfl | rfl
  · exact ⟨.Simple f .Equal v, x == v, rfl, by
      simpa using execute_simple_ok f v x .Equal reg hl heq⟩
  · exact ⟨.Simple f .Greater v, ltStr v x, rfl, by
      simpa using execute_simple_ok f v x .Greater reg hl heq⟩
  · exact ⟨.Simple f .Lesser v, ltStr x v, rfl, by
      simpa using execute_simple_ok f v x .Lesser reg hl heq⟩

/-- Witness for C1 as amended, with both sides numeric. -/
theorem parse_eval_ok_of_same_class_witness :
    ∃ cond b, (new_simple_from_tokens [['a'], ['>'], ['1']] 0).1 = .ok cond
      ∧ execute cond [(['a'], ['2'])] = .ok b :=
  parse_eval_ok_of_same_class ['a'] ['>'] ['1'] ['2'] [(['a'], ['2'])]
    (Or.inr (Or.inl rfl)) rfl (by decide)

/-- Claim C2: evaluating a Complex node computes the boolean function of
the results of its children: a Not node with left absent returns the
negation of evaluating right; an And node with left present returns the
conjunction and an Or node the disjunction of the two results; and in the
And / Or cases the right side is always evaluated with no early exit, so
that when the left side evaluates to any value and the right side fails,
the whole evaluation fails with the right side error. -/
theorem complex_boolean_semantics (l r : Condition) (reg : Register)
    (a b : Bool) (e : SqlError) :
    (execute r reg = .ok b → execute (.Complex none .Not r) reg = .ok (!b))
    ∧ (execute l reg = .ok a → execute r reg = .ok b →
        execute (.Complex (some l) .And r) reg = .ok (a && b))
    ∧ (execute l reg = .ok a → execute r reg = .ok b →
        execute (.Complex (some l) .Or r) reg = .ok (a || b))
    ∧ (execute l reg = .ok a → execute r reg = .error e →
        execute (.Complex (some l) .And r) reg = .error e)
    ∧ (execute l reg = .ok a → execute r reg = .error e →
        execute (.Complex (some l) .Or r) reg = .error e) := by
  refine ⟨?_, ?_, ?_, ?_, ?_⟩
  · intro h; rw [execute_not, h]
  · intro h1 h2; rw [execute_and_some, h1, h2]
  · intro h1 h2; rw [execute_or_some, h1, h2]
  · intro h1 h2; rw [execute_and_some, h1, h2]
  · intro h1 h2; rw [execute_or_some, h1, h2]

/-- Witness for C2: the left operand evaluates to true on the given row,
the right operand has a missing field, and the And / Or nodes fail with the
right side error even though the left result is already known; the Not and
And success cases are also instantiated. -/
theorem complex_boolean_semantics_witness :
    execute (.Complex (some (.Simple ['a'] .Equal ['1'])) .And (.Simple ['b'] .Equal ['1']))
        [(['a'], ['1'])] = .error .Error
    ∧ execute (.Complex (some (.Simple ['a'] .Equal ['1'])) .Or (.Simple ['b'] .Equal ['1']))
        [(['a'], ['1'])] = .error .Error
    ∧ execute (.Complex none .Not (.Simple ['a'] .Equal ['1'])) [(['a'], ['1'])] = .ok (!true)
    ∧ execute (.Complex (some (.Simple ['a'] .Equal ['1'])) .And (.Simple ['a'] .Equal ['1']))
        [(['a'], ['1'])] = .ok (true && true) := by
  have h1 := complex_boolean_semantics (.Simple ['a'] .Equal ['1'])
    (.Simple ['b'] .Equal ['1']) [(['a'], ['1'])] true true .Error
  have h2 := complex_boolean_semantics (.Simple ['a'] .Equal ['1'])
    (.Simple ['a'] .Equal ['1']) [(['a'], ['1'])] true true .Error
  exact ⟨h1.2.2.2.1 rfl rfl, h1.2.2.2.2 rfl rfl, h2.1 rfl, h2.2.1 rfl rfl⟩

/-- Claim C3: when the field is present in the row and the row value and
the literal are both numeric or both non-numeric, evaluation compares the
two strings lexicographically (ltStr, the string ordering) for all three
operators; in particular the row value 9 is greater than the literal 10,
since the string 10 is lexicographically below the string 9. -/
theorem simple_comparison_lexicographic :
    (∀ (f v x : Str) (op : Operator) (reg : Register),
      reg.lookup f = some x → is_number x = is_number v →
      execute (.Simple f op v) reg
        = .ok (match op with
            | .Lesser => ltStr x v
            | .Greater => ltStr v x
            | .Equal => x == v))
    ∧ ltStr ['1','0'] ['9'] = true
    ∧ execute (.Simple ['n'] .Greater ['1','0']) [(['n'], ['9'])] = .ok true
    ∧ execute (.Simple ['n'] .Lesser ['1','0']) [(['n'], ['9'])] = .ok false
    ∧ execute (.Simple ['n'] .Equal ['1','0']) [(['n'], ['9'])] = .ok false := by
  exact ⟨fun f v x op reg hl heq => execute_simple_ok f v x op reg hl heq,
    by decide, rfl, rfl, rfl⟩

/-- Witness for C3, comparing equal numeric strings. -/
theorem simple_comparison_lexicographic_witness :
    execute (.Simple ['n'] .Equal ['5']) [(['n'], ['5'])] = .ok true := by
  simpa using simple_comparison_lexicographic.1 ['n'] ['5'] ['5'] .Equal
    [(['n'], ['5'])] rfl rfl

/-- Claim C4: when the field is present and exactly one of the row value
and the literal parses as a 32-bit signed integer, evaluation fails with
InvalidSyntax for every operator — mixed-type comparison is rejected, never
coerced; evaluating the condition field greater-than 18 against a row where
the field holds abc raises it; and the pure digit string 2147483648, just
above the 32-bit bound, counts as non-numeric, so comparing it against the
in-range digit string 5 also fails. -/
theorem mixed_type_comparison_rejected :
    (∀ (f v x : Str) (op : Operator) (reg : Register),
      reg.lookup f = some x → is_number x ≠ is_number v →
      execute (.Simple f op v) reg = .error .InvalidSyntax)
    ∧ execute (.Simple ['f'] .Greater ['1','8']) [(['f'], ['a','b','c'])]
        = .error .InvalidSyntax
    ∧ is_number ['2','1','4','7','4','8','3','6','4','8'] = false
    ∧ is_number ['5'] = true
    ∧ execute (.Simple ['f'] .Greater ['2','1','4','7','4','8','3','6','4','8'])
        [(['f'], ['5'])] = .error .InvalidSyntax := by
  refine ⟨?gen, rfl, by decide, by decide, rfl⟩
  case gen =>
    intro f v x op reg hl hne
    rw [execute_simple_some f op v x reg hl]
    cases hv : is_number v <;> cases hx : is_number x <;>
      simp [hv, hx] at hne ⊢

/-- Witness for C4, with a non-numeric row value and a numeric literal. -/
theorem mixed_type_comparison_rejected_witness :
    execute (.Simple ['g'] .Equal ['1']) [(['g'], ['x','y'])] = .error .InvalidSyntax :=
  mixed_type_comparison_rejected.1 ['g'] ['1'] ['x','y'] .Equal [(['g'], ['x','y'])] rfl (by decide)

/-- Claim C5: the generic error (SqlError.Error, distinct from
InvalidSyntax) arises exactly from a Simple leaf whose field is absent from
the row or an And / Or node without a left operand: such a leaf fails with
it rather than yielding any default result, an And / Or node without a left
fails with it, every error propagates unchanged out of Not and out of
either side of And / Or, and when every reachable leaf field is present and
every And / Or node has a left subtree the evaluation never produces the
generic error. -/
theorem missing_data_error_spec :
    (∀ (f : Str) (op : Operator) (v : Str) (reg : Register),
      reg.lookup f = none → execute (.Simple f op v) reg = .error .Error)
    ∧ (∀ (op : LogicalOperator) (r : Condition) (reg : Register),
      op = .And ∨ op = .Or → execute (.Complex none op r) reg = .error .Error)
    ∧ (∀ (lopt : Option Condition) (r : Condition) (reg : Register) (e : SqlError),
      execute r reg = .error e → execute (.Complex lopt .Not r) reg = .error e)
    ∧ (∀ (l r : Condition) (reg : Register) (op : LogicalOperator) (e : SqlError),
      op = .And ∨ op = .Or → execute l reg = .error e →
      execute (.Complex (some l) op r) reg = .error e)
    ∧ (∀ (l r : Condition) (reg : Register) (op : LogicalOperator) (e : SqlError) (b : Bool),
      op = .And ∨ op = .Or → execute l reg = .ok b → execute r reg = .error e →
      execute (.Complex (some l) op r) reg = .error e)
    ∧ (∀ (c : Condition) (reg : Register),
      dataComplete reg c = true → execute c reg ≠ .error .Error) := by
  refine ⟨?missing, ?noleft, ?notprop, ?leftprop, ?rightprop,
    fun c reg h => execute_ne_generic_error c reg h⟩
  case missing =>
    intro f op v reg hn
    rw [execute_simple, hn]
  case noleft =>
    intro op r reg ho
    rcases ho with rfl | rfl <;> rfl
  case notprop =>
    intro lopt r reg e h
    rw [execute_not, h]
  case leftprop =>
    intro l r reg op e ho h
    rcases ho with rfl | rfl
    · rw [execute_and_some, h]
    · rw [execute_or_some, h]
  case rightprop =>
    intro l r reg op e b ho h1 h2
    rcases ho with rfl | rfl
    · rw [execute_and_some, h1, h2]
    · rw [execute_or_some, h1, h2]

/-- Witness for C5: a leaf with an absent field, an And node without a
left, propagation through Not, and a fully present tree that cannot yield
the generic error. -/
theorem missing_data_error_spec_witness :
    execute (.Simple ['q'] .Equal ['1']) [] = .error .Error
    ∧ execute (.Complex none .And (.Simple ['q'] .Equal ['1'])) [] = .error .Error
    ∧ execute (.Complex none .Not (.Simple ['q'] .Equal ['1'])) [] = .error .Error
    ∧ execute (.Simple ['a'] .Equal ['1']) [(['a'], ['1'])] ≠ .error .Error :=
  ⟨missing_data_error_spec.1 ['q'] .Equal ['1'] [] rfl,
    missing_data_error_spec.2.1 .And (.Simple ['q'] .Equal ['1']) [] (Or.inl rfl),
    missing_data_error_spec.2.2.1 none (.Simple ['q'] .Equal ['1']) [] .Error rfl,
    missing_data_error_spec.2.2.2.2.2 (.Simple ['a'] .Equal ['1']) [(['a'], ['1'])] (by decide)⟩

end RusticSql


